import Mathlib

/-!
Verification of the decision-and-resilience layer of the research-assistant
repository: the coordinator (task allocation, agent voting, fallback search,
reward computation, agent-update dispatch) from `src/coordinator.py`, and the
resilient source-client layer (caching, retry classification, normalization,
usage counters) from `src/tools.py`.

The learning agents, the synthesizer and the environment are external
collaborators (interface only per the design document); they are embedded as
function-valued fields so all theorems quantify over every possible
collaborator behaviour.  Python floats are modelled as rationals, Python
exceptions as `Except` values, and the HTTP/network side as an oracle that
yields one classified outcome per attempted request.
-/

namespace ResearchMind

/-- A normalized paper record, the common shape every source client produces.
Each entry of `authors` is the author's display name (the Python dicts
`\x7b'name': ...\x7d` carry exactly that one field). -/
structure Paper where
  title : String
  abstract : String
  year : Int
  citationCount : Int
  authors : List String
  url : String
deriving Repr, DecidableEq

/-- Task difficulty enum. -/
inductive Difficulty
  | easy
  | medium
  | hard
deriving Repr, DecidableEq

/-- A research task.  `evaluate_results` is the externally supplied relevance
scorer used for the `relevance` field of the returned info. -/
structure Task where
  topic : String
  query_terms : List String
  difficulty : Difficulty
  evaluate_results : List Paper → ℚ

/-- Which agent(s) a task is allocated to. -/
inductive Allocation
  | q_agent
  | ucb_agent
  | both
deriving Repr, DecidableEq

/-- The coordinator's task-allocation counters
(`self.task_allocation_history`). -/
structure AllocHistory where
  q_agent : Nat
  ucb_agent : Nat
  both : Nat
deriving Repr, DecidableEq

/-- The coordinator together with its two learning agents, which are external
collaborators embedded as functions: `episode_count`, `get_state`,
`choose_action` (state to strategy and source) belong to the Q-learning
strategy agent, `choose_source` (topic to source) to the UCB agent. -/
structure Coordinator where
  episode_count : Nat
  get_state : Task → String
  choose_action : String → String × String
  choose_source : String → String
  hist : AllocHistory

/-- `EnhancedCoordinator.allocate_task`: warm-up (episode counter below 50)
always returns `both`; afterwards easy tasks go to the UCB agent, hard tasks
to the Q agent, medium tasks to both.  Returns the allocation together with
the updated history (the Python method mutates `task_allocation_history`
in place). -/
def allocate_task (episode_count : Nat) (hist : AllocHistory) (task : Task) :
    Allocation × AllocHistory :=
  if episode_count < 50 then
    (.both, { hist with both := hist.both + 1 })
  else
    match task.difficulty with
    | .easy => (.ucb_agent, { hist with ucb_agent := hist.ucb_agent + 1 })
    | .hard => (.q_agent, { hist with q_agent := hist.q_agent + 1 })
    | .medium => (.both, { hist with both := hist.both + 1 })

/-- Increment of exactly the history bucket named by an allocation; used to
state that `allocate_task` touches one bucket per call. -/
def bumpHist (hist : AllocHistory) : Allocation → AllocHistory
  | .q_agent => { hist with q_agent := hist.q_agent + 1 }
  | .ucb_agent => { hist with ucb_agent := hist.ucb_agent + 1 }
  | .both => { hist with both := hist.both + 1 }

/-- Number of occurrences of a value in a list of ballots
(`collections.Counter` counting). -/
def countOcc (xs : List String) (x : String) : Nat :=
  (xs.filter (fun y => y = x)).length

/-- First-occurrence deduplication, mirroring the insertion order a Python
`Counter` (a dict subclass) keeps for its keys. -/
def dedupFirst (xs : List String) : List String :=
  xs.foldl (fun acc x => if x ∈ acc then acc else acc ++ [x]) []

/-- `Counter(xs).most_common(1)[0][0]`: the first key, in insertion order,
whose count is maximal (`heapq.nlargest` is stable, so among equal counts
the earliest-inserted key wins). -/
def mostCommon1 (xs : List String) : Option String :=
  (dedupFirst xs).foldl
    (fun best x =>
      match best with
      | none => some x
      | some b => if countOcc xs x > countOcc xs b then some x else best)
    none

/-- `EnhancedCoordinator.agent_voting`: the Q agent and the UCB agent each
cast one ballot for a source; the winner is the most common ballot with the
stable tie-break above; the strategy returned is always the Q agent's.
Returns `(winning_source, q_strategy, votes)`.  (`most_common(1)[0]` on the
two-ballot list never fails; the `getD` default is unreachable.) -/
def agent_voting (co : Coordinator) (state topic : String) :
    String × String × List (String × String) :=
  let qa := co.choose_action state
  let ucb_source := co.choose_source topic
  let votes := [("q_agent", qa.2), ("ucb_agent", ucb_source)]
  let winning := (mostCommon1 (votes.map Prod.snd)).getD qa.2
  (winning, qa.1, votes)

/-- The environment interface consumed by the coordinator:
`execute_search(strategy, source)` returns papers and a cost or raises
(modelled by `Except`), and `get_reward(papers, cost)` is the base reward. -/
structure Env where
  execute_search : String → String → Except String (List Paper × ℚ)
  get_reward : List Paper → ℚ → ℚ

/-- The synthesizer interface: quality, synthesis text and discovered terms. -/
structure SynthesisResult where
  quality : ℚ
  synthesis : String
  new_terms_discovered : List String

/-- The external paper synthesizer. -/
structure Synthesizer where
  synthesize : List Paper → List String → SynthesisResult

/-- Primary-search failure condition of `research_with_fallback`: an empty
result list is raised into a `ValueError` and handled together with any
exception from the environment, so both route to the fallback. -/
def searchFailed : Except String (List Paper × ℚ) → Bool
  | .ok (papers, _) => papers.isEmpty
  | .error _ => true

/-- The backup source: `'arxiv' if source == 'openalex' else 'openalex'`. -/
def backupOf (source : String) : String :=
  if source = "openalex" then "arxiv" else "openalex"

/-- Outcome of the fallback-search block (lines 98-119 of the coordinator):
papers and cost obtained, the final value of the `source` variable, the
`sources_tried` list, and the exact ordered list of `execute_search`
invocations that were made. -/
structure SearchOutcome where
  papers : List Paper
  cost : ℚ
  source : String
  sources_tried : List String
  attempts : List (String × String)
deriving Repr, DecidableEq

/-- Second stage of the fallback chain: one retry against the backup source.
On success the `source` variable is updated to the backup; on a raised
exception the result is the empty list with cost 5.0 and `source` keeps its
primary value.  (A fallback that returns an empty list without raising is a
success of this stage: there is no emptiness check here.) -/
def fallbackRetry (env : Env) (strategy source : String) : SearchOutcome :=
  match env.execute_search strategy (backupOf source) with
  | .ok (papers, cost) =>
      ⟨papers, cost, backupOf source, [source, backupOf source],
        [(strategy, source), (strategy, backupOf source)]⟩
  | .error _ =>
      ⟨[], 5, source, [source, backupOf source],
        [(strategy, source), (strategy, backupOf source)]⟩

/-- The fallback chain of `research_with_fallback`: try the primary source;
if it raises or returns an empty list, make exactly one attempt against the
backup source via `fallbackRetry`. -/
def fallbackSearch (env : Env) (strategy source : String) : SearchOutcome :=
  match env.execute_search strategy source with
  | .ok (papers, cost) =>
      if papers.isEmpty then fallbackRetry env strategy source
      else ⟨papers, cost, source, [source], [(strategy, source)]⟩
  | .error _ => fallbackRetry env strategy source

/-- Strategy/source decision by allocation: UCB alone fixes the strategy to
the default `"specific"` and asks the UCB agent for the source; the Q agent
alone supplies both; with both agents the vote's winning source and the Q
agent's strategy are used. -/
def decideStrategySource (co : Coordinator) (state topic : String) :
    Allocation → String × String
  | .ucb_agent => ("specific", co.choose_source topic)
  | .q_agent => co.choose_action state
  | .both =>
      let v := agent_voting co state topic
      (v.2.1, v.1)

/-- Everything `research_with_fallback` returns or dispatches: the paper
list, total reward, the full info dictionary, the agent updates that were
issued (`q_update` carries `(state, (strategy, source), reward, next_state)`,
`ucb_update` carries `(topic, source, reward)`), and the updated allocation
history. -/
structure ResearchResult where
  papers : List Paper
  total_reward : ℚ
  strategy : String
  source : String
  cost : ℚ
  relevance : ℚ
  papers_count : Nat
  synthesis : String
  synthesis_quality : ℚ
  new_terms : List String
  allocation : Allocation
  sources_tried : List String
  fallback_used : Bool
  attempts : List (String × String)
  q_update : Option (String × (String × String) × ℚ × String)
  ucb_update : Option (String × String × ℚ)
  hist : AllocHistory

/-- `EnhancedCoordinator.research_with_fallback`: allocate, decide strategy
and source, run the fallback search, synthesize, compute the total reward
(-10 on an empty paper list, otherwise base reward plus twice the synthesis
quality), and dispatch updates to the agents selected by the allocation with
`next_state` equal to the pre-decision state. -/
def research_with_fallback (co : Coordinator) (env : Env) (syn : Synthesizer)
    (task : Task) : ResearchResult :=
  let state := co.get_state task
  let alloc := allocate_task co.episode_count co.hist task
  let allocation := alloc.1
  let ss := decideStrategySource co state task.topic allocation
  let strategy := ss.1
  let out := fallbackSearch env strategy ss.2
  let sr := syn.synthesize out.papers task.query_terms
  let total_reward : ℚ :=
    if out.papers.isEmpty then -10
    else env.get_reward out.papers out.cost + sr.quality * 2
  { papers := out.papers
    total_reward := total_reward
    strategy := strategy
    source := out.source
    cost := out.cost
    relevance := if out.papers.isEmpty then 0 else task.evaluate_results out.papers
    papers_count := out.papers.length
    synthesis := sr.synthesis
    synthesis_quality := sr.quality
    new_terms := sr.new_terms_discovered
    allocation := allocation
    sources_tried := out.sources_tried
    fallback_used := decide (out.sources_tried.length > 1)
    attempts := out.attempts
    q_update :=
      if allocation = .q_agent ∨ allocation = .both then
        some (state, (strategy, out.source), total_reward, state)
      else none
    ucb_update :=
      if allocation = .ucb_agent ∨ allocation = .both then
        some (task.topic, out.source, total_reward)
      else none
    hist := alloc.2 }

/-! ## Resilient source-client layer (`src/tools.py`) -/

/-- A raw OpenAlex work as the provider returns it.  `none` models a missing
JSON key; `abstract_inverted_index` is the word-to-positions mapping in the
dict's insertion order; each entry of `authorships` is the nested author
display name (`none` when absent, normalized to `"Unknown"`). -/
structure Work where
  title : Option String
  abstract_inverted_index : Option (List (String × List Nat))
  display_name : Option String
  publication_year : Option Int
  cited_by_count : Option Int
  authorships : List (Option String)
  id : Option String
deriving Repr, DecidableEq

/-- Largest position mentioned anywhere in an inverted index, mirroring
`max(max(positions) for positions in inv_index.values())` on its domain
(non-empty index, non-empty position lists). -/
def maxListedPos (idx : List (String × List Nat)) : Nat :=
  (idx.map (fun wp => wp.2.foldl max 0)).foldl max 0

/-- Write every word of the index at each of its listed positions, in index
order, over an initial buffer (the nested `for` loops of the
reconstruction). -/
def writeWords (idx : List (String × List Nat)) (init : List String) :
    List String :=
  idx.foldl (fun words wp => wp.2.foldl (fun ws pos => ws.set pos wp.1) words) init

/-- The position-indexed word buffer: `[''] * (maxpos + 1)` then the writes. -/
def buildWords (idx : List (String × List Nat)) : List String :=
  writeWords idx (List.replicate (maxListedPos idx + 1) "")

/-- Abstract reconstruction from a word-to-positions inverted index:
`' '.join(words)` over the written buffer. -/
def reconstructAbstract (idx : List (String × List Nat)) : String :=
  String.intercalate " " (buildWords idx)

/-- Python `a or b` on an optional string: a present, non-empty string wins,
anything falsy (absent or empty) falls through to `b`. -/
def pyOrStr (a : Option String) (b : String) : String :=
  match a with
  | some s => if s = "" then b else s
  | none => b

/-- Normalization of one OpenAlex work into the common `Paper` shape
(lines 96-115 of `tools.py`): the abstract is reconstructed from the
inverted index when that field is present and non-empty (Python truthiness),
otherwise `display_name` or the fixed default is used. -/
def normalizeWork (w : Work) : Paper :=
  let fromIndex : Option String :=
    match w.abstract_inverted_index with
    | some idx => if idx.isEmpty then none else some (reconstructAbstract idx)
    | none => none
  { title := w.title.getD "No title"
    abstract := pyOrStr fromIndex (w.display_name.getD "No abstract available")
    year := w.publication_year.getD 0
    citationCount := w.cited_by_count.getD 0
    authors := w.authorships.map (fun a => a.getD "Unknown")
    url := w.id.getD "" }

/-- Classified outcome of one OpenAlex HTTP attempt.  `success` is a 200
response whose body parsed into a list of works; `exn` covers any exception
raised while issuing the request or handling the response (malformed
payload included), other than the dedicated timeout handler. -/
inductive HttpOutcome
  | success (works : List Work)
  | rateLimited
  | serverError
  | clientError (code : Nat)
  | timeout
  | exn (msg : String)
deriving Repr, DecidableEq

/-- True when the outcome is anything but a parsed 200 response. -/
def isFailureOutcome : HttpOutcome → Bool
  | .success _ => false
  | _ => true

/-- The OpenAlex retry loop (`for attempt in range(3)`), driven by an oracle
giving the outcome of the attempt-indexed request.  Returns the parsed works
of the first successful attempt (or `none` if every attempt failed) together
with the number of HTTP requests issued.  `rateLimited` always retries
(sleep 5 then `continue`); `serverError`, `timeout` and `exn` retry with
linear backoff only while `attempt < max_retries - 1`; any other status
returns immediately.  The second argument is the attempt index, the third
the remaining loop iterations (initially 0 and 3). -/
def openalexLoop (outcomes : Nat → HttpOutcome) : Nat → Nat → Option (List Work) × Nat
  | _, 0 => (none, 0)
  | attempt, fuel + 1 =>
    match outcomes attempt with
    | .success works => (some works, 1)
    | .rateLimited =>
        let r := openalexLoop outcomes (attempt + 1) fuel
        (r.1, r.2 + 1)
    | .serverError =>
        if attempt < 2 then
          let r := openalexLoop outcomes (attempt + 1) fuel
          (r.1, r.2 + 1)
        else (none, 1)
    | .clientError _ => (none, 1)
    | .timeout =>
        if attempt < 2 then
          let r := openalexLoop outcomes (attempt + 1) fuel
          (r.1, r.2 + 1)
        else (none, 1)
    | .exn _ =>
        if attempt < 2 then
          let r := openalexLoop outcomes (attempt + 1) fuel
          (r.1, r.2 + 1)
        else (none, 1)

/-- A raw arXiv result entry as yielded by the arXiv client iterator. -/
structure ArxivEntry where
  title : String
  summary : String
  year : Int
  authors : List String
  entry_id : String
deriving Repr, DecidableEq

/-- Normalization of one arXiv entry (lines 177-184 of `tools.py`);
`citationCount` is fixed to 0. -/
def normalizeArxiv (e : ArxivEntry) : Paper :=
  { title := e.title
    abstract := e.summary
    year := e.year
    citationCount := 0
    authors := e.authors
    url := e.entry_id }

/-- Outcome of iterating the arXiv client: either the full entry list
(`ok`), or an exception after yielding a prefix of entries (`failAfter`), in
which case the partial papers are still returned but `save_cache` is never
reached. -/
inductive ArxivOutcome
  | ok (entries : List ArxivEntry)
  | failAfter (entries : List ArxivEntry) (msg : String)
deriving Repr, DecidableEq

/-- The external world one toolkit call interacts with: the OpenAlex HTTP
outcome per attempt, the arXiv iteration outcome, and whether each client's
`save_cache` write goes through.  `save_cache` swallows its own errors
(bare `except: pass`, `tools.py` lines 35-42), so a failed write is silent:
the papers are still returned but nothing lands in the cache — the
`SaveOk = false` worlds model exactly that path. -/
structure World where
  openalexOutcomes : Nat → HttpOutcome
  arxivOutcome : ArxivOutcome
  openalexSaveOk : Bool
  arxivSaveOk : Bool

/-- The on-disk cache, one entry per key; `none` models a missing or
unreadable (corrupt) cache file, both of which `get_cached` reports as a
miss. -/
def CacheMap : Type := String → Option (List Paper)

/-- Cache key for a (source, query) pair.  The Python code hashes the string
`source ++ "_" ++ query` with md5; the digest step is injective-in-practice
bookkeeping, so the model keys the cache by that string directly. -/
def cacheKey (source query : String) : String := source ++ "_" ++ query

/-- Cache write (`save_cache`). -/
def updCache (c : CacheMap) (k : String) (v : List Paper) : CacheMap :=
  fun x => if x = k then some v else c x

/-- Python truthiness of the cached payload as used by `if cached:`:
only a present, non-empty list short-circuits the search. -/
def truthyCache : Option (List Paper) → Bool
  | some ps => !ps.isEmpty
  | none => false

/-- The fresh-request path of `OpenAlexAPI.search_papers`: run the retry
loop; on a parsed 200, normalize, attempt the cache write (even when the
list is empty; the write silently fails in the `openalexSaveOk = false`
worlds) and return the papers; otherwise return the empty list leaving the
cache untouched.  Result: papers, updated cache, number of HTTP requests. -/
def openalexFresh (world : World) (cache : CacheMap) (key : String) :
    List Paper × CacheMap × Nat :=
  match openalexLoop world.openalexOutcomes 0 3 with
  | (some works, n) =>
      (works.map normalizeWork,
       if world.openalexSaveOk then updCache cache key (works.map normalizeWork)
       else cache,
       n)
  | (none, n) => ([], cache, n)

/-- `OpenAlexAPI.search_papers`: serve a truthy cache hit verbatim with no
request, otherwise go to the network.  `limit` only shapes the request
parameters (`per_page = min(limit, 200)`), which the outcome oracle
abstracts over. -/
def openalex_search_papers (world : World) (cache : CacheMap) (query : String)
    (limit : Nat) : List Paper × CacheMap × Nat :=
  match cache (cacheKey "openalex" query) with
  | some ps =>
      if ps.isEmpty then openalexFresh world cache (cacheKey "openalex" query)
      else (ps, cache, 0)
  | none => openalexFresh world cache (cacheKey "openalex" query)

/-- The fresh-request path of `ArxivAPI.search_papers`: a full iteration
attempts the cache write (which silently fails in the
`arxivSaveOk = false` worlds) and returns the papers; an exception
mid-iteration returns the partial papers without ever reaching the write. -/
def arxivFresh (world : World) (cache : CacheMap) (key : String) :
    List Paper × CacheMap × Nat :=
  match world.arxivOutcome with
  | .ok entries =>
      (entries.map normalizeArxiv,
       if world.arxivSaveOk then updCache cache key (entries.map normalizeArxiv)
       else cache,
       1)
  | .failAfter entries _ => (entries.map normalizeArxiv, cache, 1)

/-- `ArxivAPI.search_papers`: serve a truthy cache hit verbatim, otherwise
iterate the client once via `arxivFresh`. -/
def arxiv_search_papers (world : World) (cache : CacheMap) (query : String)
    (limit : Nat) : List Paper × CacheMap × Nat :=
  match cache (cacheKey "arxiv" query) with
  | some ps =>
      if ps.isEmpty then arxivFresh world cache (cacheKey "arxiv" query)
      else (ps, cache, 0)
  | none => arxivFresh world cache (cacheKey "arxiv" query)

/-- The `ResearchToolkit` mutable state: the shared cache directory (keys
embed the source, so one map suffices) and the per-source call and failure
counters, total functions defaulting to 0 exactly like `dict.get(src, 0)`. -/
structure ToolkitState where
  cache : CacheMap
  call_count : String → Nat
  failure_count : String → Nat

/-- Counter increment at one key. -/
def bumpCount (f : String → Nat) (k : String) : String → Nat :=
  fun x => if x = k then f x + 1 else f x

/-- Result of one `ResearchToolkit.search` call: the returned papers, the
updated toolkit state, and the number of external provider requests issued
(0 means the call was answered without touching the network). -/
structure SearchCall where
  papers : List Paper
  state : ToolkitState
  requests : Nat

/-- `ResearchToolkit.search`: always increment the source's call counter,
dispatch to the matching client (an unknown source yields the empty list
with no request), and increment the failure counter iff the returned list is
empty.  The surrounding `try/except` of the Python method converts any
escaping exception into the same empty-list-plus-failure outcome; since both
clients already catch everything, the dispatch is total here. -/
def toolkit_search (world : World) (st : ToolkitState) (query source : String)
    (limit : Nat) : SearchCall :=
  let calls := bumpCount st.call_count source
  let step : List Paper × CacheMap × Nat :=
    if source = "openalex" then openalex_search_papers world st.cache query limit
    else if source = "arxiv" then arxiv_search_papers world st.cache query limit
    else ([], st.cache, 0)
  let papers := step.1
  let fails :=
    if papers.isEmpty then bumpCount st.failure_count source else st.failure_count
  ⟨papers, ⟨step.2.1, calls, fails⟩, step.2.2⟩

/-- Derived per-source success rate of `get_stats`:
`1 - failures / max(1, calls)`. -/
def success_rate (st : ToolkitState) (src : String) : ℚ :=
  1 - (st.failure_count src : ℚ) / ((max 1 (st.call_count src) : ℕ) : ℚ)

/-- Toolkit states reachable from a freshly constructed `ResearchToolkit`
(zero counters; the on-disk cache may hold anything left by earlier runs)
by any sequence of `search` calls. -/
inductive ReachableToolkit : ToolkitState → Prop
  | init (cache : CacheMap) : ReachableToolkit ⟨cache, fun _ => 0, fun _ => 0⟩
  | step (world : World) (st : ToolkitState) (query source : String) (limit : Nat) :
      ReachableToolkit st →
      ReachableToolkit (toolkit_search world st query source limit).state

/-! ## Concrete instances used to exercise the theorems -/

/-- A sample normalized paper. -/
def paperA : Paper := ⟨"T", "A", 2020, 3, ["X"], "u"⟩

/-- A hard task with a trivial relevance scorer. -/
def taskHard : Task := ⟨"ml", ["deep"], .hard, fun _ => 0⟩

/-- A post-warm-up coordinator whose Q agent always proposes
`("broad", "openalex")` and whose UCB agent always picks `"arxiv"`. -/
def coW : Coordinator :=
  ⟨100, fun _ => "s0", fun _ => ("broad", "openalex"), fun _ => "arxiv", ⟨0, 0, 0⟩⟩

/-- A synthesizer of constant quality 1/2. -/
def synW : Synthesizer := ⟨fun _ _ => ⟨1 / 2, "syn", []⟩⟩

/-- An environment whose primary `openalex` search succeeds with an empty
list at cost 1 and whose `arxiv` search succeeds with an empty list at
cost 3. -/
def envBothEmpty : Env :=
  ⟨fun _ s => if s = "openalex" then .ok ([], 1) else .ok ([], 3), fun _ _ => 0⟩

/-- An environment where `openalex` raises and `arxiv` succeeds with one
paper at cost 2. -/
def envPrimaryDown : Env :=
  ⟨fun _ s => if s = "openalex" then .error "down" else .ok ([paperA], 2),
   fun _ c => 10 - c⟩

/-- An environment where both sources raise. -/
def envAllDown : Env := ⟨fun _ _ => .error "down", fun _ _ => 0⟩

/-! ## Claim theorems: coordinator -/

/-- C3: `allocate_task` returns `both` whenever the episode counter is below
50 regardless of difficulty; at 50 or more it maps easy to `ucb_agent`,
hard to `q_agent` and medium to `both`; it is a total function over the
difficulty enum (by its type) and increments exactly the history bucket of
the returned allocation, raising the bucket total by exactly one. -/
theorem allocate_task_policy (ec : Nat) (hist : AllocHistory) (task : Task) :
    (ec < 50 → (allocate_task ec hist task).1 = .both) ∧
    (50 ≤ ec → (allocate_task ec hist task).1 =
      (match task.difficulty with
       | .easy => .ucb_agent
       | .hard => .q_agent
       | .medium => .both)) ∧
    (allocate_task ec hist task).2 = bumpHist hist (allocate_task ec hist task).1 ∧
    (allocate_task ec hist task).2.q_agent + (allocate_task ec hist task).2.ucb_agent +
        (allocate_task ec hist task).2.both =
      hist.q_agent + hist.ucb_agent + hist.both + 1 := by
  unfold allocate_task
  by_cases h : ec < 50
  · have h2 : ¬ 50 ≤ ec := by omega
    simp [h, h2, bumpHist] <;> omega
  · cases hd : task.difficulty <;> simp [h, hd, bumpHist] <;> omega

/-- Witness for C3 at a concrete warm-up call. -/
theorem allocate_task_policy_witness :
    (allocate_task 10 ⟨1, 2, 3⟩ taskHard).1 = .both :=
  (allocate_task_policy 10 ⟨1, 2, 3⟩ taskHard).1 (by omega)

/-- The two-ballot `most_common(1)` always elects the first ballot: with
identical ballots it is the unique key, with distinct ballots both counts
are 1 and the stable order prefers the first-inserted key. -/
theorem mostCommon1_pair (a b : String) : mostCommon1 [a, b] = some a := by
  by_cases h : b = a
  · subst h
    simp [mostCommon1, dedupFirst, countOcc]
  · have h2 : ¬ a = b := fun e => h e.symm
    simp [mostCommon1, dedupFirst, countOcc, h, h2]

/-- C4: `agent_voting` is a pure function of the two agents' choices (hence
deterministic); the returned strategy is always the Q agent's proposal, and
the winning source is the common ballot when the agents agree and the Q
agent's ballot on a 1-1 tie. -/
theorem agent_voting_spec (co : Coordinator) (state topic : String) :
    (agent_voting co state topic).2.1 = (co.choose_action state).1 ∧
    ((co.choose_action state).2 = co.choose_source topic →
      (agent_voting co state topic).1 = (co.choose_action state).2) ∧
    ((co.choose_action state).2 ≠ co.choose_source topic →
      (agent_voting co state topic).1 = (co.choose_action state).2) := by
  unfold agent_voting
  simp [mostCommon1_pair]

/-- Witness for C4 on a disagreeing ballot pair. -/
theorem agent_voting_spec_witness :
    (agent_voting coW "s0" "ml").1 = "openalex" :=
  (agent_voting_spec coW "s0" "ml").2.2 (by decide)

/-- C2: the total reward of `research_with_fallback` is the base reward plus
twice the synthesis quality when the obtained paper list is non-empty, and
exactly -10 (independent of the cost) when it is empty. -/
theorem research_reward_eq (co : Coordinator) (env : Env) (syn : Synthesizer)
    (task : Task) :
    (research_with_fallback co env syn task).total_reward =
      if (research_with_fallback co env syn task).papers.isEmpty then (-10 : ℚ)
      else
        env.get_reward (research_with_fallback co env syn task).papers
            (research_with_fallback co env syn task).cost +
          (syn.synthesize (research_with_fallback co env syn task).papers
              task.query_terms).quality * 2 := rfl

/-- C9: the Q agent receives `update(state, (strategy, source), reward,
next_state)` exactly when the allocation is `q_agent` or `both`, the UCB
agent receives `update(topic, source, reward)` exactly when the allocation
is `ucb_agent` or `both`, and `next_state` equals the pre-decision state. -/
theorem research_update_dispatch (co : Coordinator) (env : Env)
    (syn : Synthesizer) (task : Task) :
    let r := research_with_fallback co env syn task
    (r.allocation = .q_agent →
      r.q_update = some (co.get_state task, (r.strategy, r.source),
        r.total_reward, co.get_state task) ∧ r.ucb_update = none) ∧
    (r.allocation = .ucb_agent →
      r.q_update = none ∧
      r.ucb_update = some (task.topic, r.source, r.total_reward)) ∧
    (r.allocation = .both →
      r.q_update = some (co.get_state task, (r.strategy, r.source),
        r.total_reward, co.get_state task) ∧
      r.ucb_update = some (task.topic, r.source, r.total_reward)) := by
  cases halloc : (allocate_task co.episode_count co.hist task).1 <;>
    simp [research_with_fallback, halloc]

/-- Witness for C9: a hard post-warm-up task is allocated to the Q agent
alone, so only the Q update is dispatched. -/
theorem research_update_dispatch_witness :
    (research_with_fallback coW envPrimaryDown synW taskHard).ucb_update = none :=
  ((research_update_dispatch coW envPrimaryDown synW taskHard).1 rfl).2

/-- C1 counterexample: with a primary `openalex` search that returns an
empty list and a fallback `arxiv` search that also returns an empty list
(without raising), both attempts fail in the claim's sense, yet the final
cost is the environment's cost 3, not the claimed fixed penalty 5.0. -/
theorem fallback_cost_counterexample :
    searchFailed (envBothEmpty.execute_search "specific" "openalex") = true ∧
    searchFailed (envBothEmpty.execute_search "specific" "arxiv") = true ∧
    (fallbackSearch envBothEmpty "specific" "openalex").papers = [] ∧
    (fallbackSearch envBothEmpty "specific" "openalex").cost = 3 ∧
    ¬ (fallbackSearch envBothEmpty "specific" "openalex").cost = 5 := by
  decide

/-- C1 as amended: if the primary search raises or returns an empty list,
exactly one fallback attempt is made, against the fixed alternate of the
pair (openalex to arxiv and arxiv to openalex); if the fallback attempt
raises, the result is the empty list with cost exactly 5.0; if the fallback
attempt returns without raising, its papers and its cost are the result,
even when that list is empty; in every case no further attempts are made. -/
theorem fallback_chain_spec (env : Env) (strategy source : String)
    (hfail : searchFailed (env.execute_search strategy source) = true) :
    (fallbackSearch env strategy source).attempts =
      [(strategy, source), (strategy, backupOf source)] ∧
    (fallbackSearch env strategy source).sources_tried =
      [source, backupOf source] ∧
    (source = "openalex" → backupOf source = "arxiv") ∧
    (source = "arxiv" → backupOf source = "openalex") ∧
    (∀ msg, env.execute_search strategy (backupOf source) = .error msg →
      (fallbackSearch env strategy source).papers = [] ∧
      (fallbackSearch env strategy source).cost = 5) ∧
    (∀ ps c, env.execute_search strategy (backupOf source) = .ok (ps, c) →
      (fallbackSearch env strategy source).papers = ps ∧
      (fallbackSearch env strategy source).cost = c) := by
  have hb1 : source = "openalex" → backupOf source = "arxiv" := by
    intro h
    simp [backupOf, h]
  have hb2 : source = "arxiv" → backupOf source = "openalex" := by
    intro h
    subst h
    decide
  have hret : fallbackSearch env strategy source = fallbackRetry env strategy source := by
    unfold fallbackSearch
    cases h : env.execute_search strategy source with
    | ok pc =>
        obtain ⟨papers, cost⟩ := pc
        rw [h] at hfail
        simp only [searchFailed] at hfail
        simp [hfail]
    | error e => rfl
  rw [hret]
  unfold fallbackRetry
  cases h2 : env.execute_search strategy (backupOf source) with
  | ok pc =>
      obtain ⟨ps, c⟩ := pc
      refine ⟨rfl, rfl, hb1, hb2, ?_, ?_⟩
      · intro msg hmsg
        cases hmsg
      · intro ps2 c2 hok
        cases hok
        exact ⟨rfl, rfl⟩
  | error e =>
      refine ⟨rfl, rfl, hb1, hb2, ?_, ?_⟩
      · intro msg hmsg
        exact ⟨rfl, rfl⟩
      · intro ps2 c2 hok
        cases hok

/-- Witness for the amended C1: a raising primary with a one-paper fallback
success attempts exactly the pair in order. -/
theorem fallback_chain_spec_witness :
    (fallbackSearch envPrimaryDown "broad" "openalex").attempts =
      [("broad", "openalex"), ("broad", "arxiv")] :=
  (fallback_chain_spec envPrimaryDown "broad" "openalex" (by decide)).1

/-! ## Claim theorems: search toolkit -/

/-- The freshly constructed toolkit over an empty cache directory. -/
def stInit : ToolkitState := ⟨fun _ => none, fun _ => 0, fun _ => 0⟩

/-- A world in which every OpenAlex attempt raises and the arXiv iteration
fails before yielding anything. -/
def worldAllFail : World := ⟨fun _ => .exn "boom", .failAfter [] "boom", true, true⟩

/-- A raw OpenAlex work with only a title. -/
def workT : Work := ⟨some "T", none, none, some 2020, some 3, [], some "u"⟩

/-- A world whose OpenAlex request succeeds with one work and whose cache
writes go through. -/
def worldOk1 : World := ⟨fun _ => .success [workT], .ok [], true, true⟩

/-- A sample arXiv entry. -/
def entryA : ArxivEntry := ⟨"T", "S", 2020, ["A"], "id"⟩

/-- A world whose arXiv iteration raises after yielding one entry. -/
def worldMidFail : World := ⟨fun _ => .exn "x", .failAfter [entryA] "mid", true, true⟩

/-- A toolkit state whose cache already holds one paper for the OpenAlex
key of query "q". -/
def stCached : ToolkitState :=
  ⟨fun k => if k = cacheKey "openalex" "q" then some [paperA] else none,
   fun _ => 0, fun _ => 0⟩

theorem bumpCount_self (f : String → Nat) (k : String) : bumpCount f k k = f k + 1 := by
  simp [bumpCount]

theorem bumpCount_ne (f : String → Nat) (k s : String) (h : s ≠ k) :
    bumpCount f k s = f s := by
  simp [bumpCount, h]

/-- Counter part of one toolkit call, stated as definitional equations. -/
theorem toolkit_search_counts (world : World) (st : ToolkitState) (q src : String)
    (lim : Nat) :
    (toolkit_search world st q src lim).state.call_count = bumpCount st.call_count src ∧
    (toolkit_search world st q src lim).state.failure_count =
      (if (toolkit_search world st q src lim).papers.isEmpty
       then bumpCount st.failure_count src else st.failure_count) :=
  ⟨rfl, rfl⟩

/-- In every reachable toolkit state the failure counter never exceeds the
call counter, for any source key. -/
theorem reachable_fail_le_call (st2 : ToolkitState) (h : ReachableToolkit st2) :
    ∀ s, st2.failure_count s ≤ st2.call_count s := by
  induction h with
  | init cache => intro s; exact Nat.le_refl 0
  | step world st q src lim hr ih =>
      intro s
      rw [(toolkit_search_counts world st q src lim).1,
        (toolkit_search_counts world st q src lim).2]
      by_cases hp : (toolkit_search world st q src lim).papers.isEmpty <;>
        by_cases hs : s = src <;>
        simp [hp, hs, bumpCount] <;>
        first
        | exact ih s
        | exact ih src
        | exact Nat.le_succ_of_le (ih src)

/-- The success rate lies in the unit interval whenever failures are bounded
by calls. -/
theorem success_rate_bounds (st2 : ToolkitState) (s : String)
    (h : st2.failure_count s ≤ st2.call_count s) :
    0 ≤ success_rate st2 s ∧ success_rate st2 s ≤ 1 := by
  unfold success_rate
  have hden : (0 : ℚ) < ((max 1 (st2.call_count s) : ℕ) : ℚ) := by
    have h1 : (1 : ℕ) ≤ max 1 (st2.call_count s) := le_max_left _ _
    exact_mod_cast Nat.lt_of_lt_of_le Nat.zero_lt_one h1
  constructor
  · have hle : ((st2.failure_count s : ℕ) : ℚ) ≤
        ((max 1 (st2.call_count s) : ℕ) : ℚ) := by
      exact_mod_cast le_trans h (le_max_right 1 _)
    have hq := div_le_one_of_le hle (le_of_lt hden)
    linarith
  · have hnn : (0 : ℚ) ≤
        (st2.failure_count s : ℚ) / ((max 1 (st2.call_count s) : ℕ) : ℚ) :=
      div_nonneg (by positivity) (le_of_lt hden)
    linarith

/-- C7: every toolkit `search` call increments the named source's call count
by exactly one and no other, increments the failure count iff the returned
list is empty, and in every reachable toolkit state failures never exceed
calls and the derived success rate (calls floored at 1) lies in [0, 1]. -/
theorem toolkit_counter_spec (world : World) (st : ToolkitState) (q src : String)
    (lim : Nat) :
    ((toolkit_search world st q src lim).state.call_count src = st.call_count src + 1) ∧
    (∀ s, s ≠ src → (toolkit_search world st q src lim).state.call_count s =
      st.call_count s) ∧
    ((toolkit_search world st q src lim).state.failure_count src =
      st.failure_count src +
        (if (toolkit_search world st q src lim).papers.isEmpty then 1 else 0)) ∧
    (∀ s, s ≠ src → (toolkit_search world st q src lim).state.failure_count s =
      st.failure_count s) ∧
    (∀ st2, ReachableToolkit st2 → ∀ s,
      st2.failure_count s ≤ st2.call_count s ∧
      0 ≤ success_rate st2 s ∧ success_rate st2 s ≤ 1) := by
  refine ⟨?_, ?_, ?_, ?_, ?_⟩
  · rw [congrFun (toolkit_search_counts world st q src lim).1 src, bumpCount_self]
  · intro s hs
    rw [congrFun (toolkit_search_counts world st q src lim).1 s, bumpCount_ne _ _ _ hs]
  · rw [congrFun (toolkit_search_counts world st q src lim).2 src]
    by_cases hp : (toolkit_search world st q src lim).papers.isEmpty <;>
      simp [hp, bumpCount]
  · intro s hs
    rw [congrFun (toolkit_search_counts world st q src lim).2 s]
    by_cases hp : (toolkit_search world st q src lim).papers.isEmpty <;>
      simp [hp, bumpCount, hs]
  · intro st2 h2 s
    exact ⟨reachable_fail_le_call st2 h2 s,
      success_rate_bounds st2 s (reachable_fail_le_call st2 h2 s)⟩

/-- Witness for C7 at a concrete failing call from the initial state. -/
theorem toolkit_counter_spec_witness :
    (toolkit_search worldAllFail stInit "q" "openalex" 10).state.call_count "openalex" = 1 ∧
    0 ≤ success_rate stInit "arxiv" := by
  refine ⟨(toolkit_counter_spec worldAllFail stInit "q" "openalex" 10).1, ?_⟩
  exact ((toolkit_counter_spec worldAllFail stInit "q" "openalex" 10).2.2.2.2 stInit
    (ReachableToolkit.init (fun _ => none)) "arxiv").2.1

theorem isEmpty_false_of_ne {ps : List Paper} (h : ps ≠ []) : ps.isEmpty = false := by
  cases ps with
  | nil => exact absurd rfl h
  | cons a t => rfl

/-- A truthy OpenAlex cache hit is served verbatim with no request. -/
theorem openalex_hit (world : World) (cache : CacheMap) (q : String) (lim : Nat)
    (ps : List Paper) (hc : cache (cacheKey "openalex" q) = some ps) (hne : ps ≠ []) :
    openalex_search_papers world cache q lim = (ps, cache, 0) := by
  unfold openalex_search_papers
  rw [hc]
  cases ps with
  | nil => exact absurd rfl hne
  | cons a t => rfl

/-- A truthy arXiv cache hit is served verbatim with no request. -/
theorem arxiv_hit (world : World) (cache : CacheMap) (q : String) (lim : Nat)
    (ps : List Paper) (hc : cache (cacheKey "arxiv" q) = some ps) (hne : ps ≠ []) :
    arxiv_search_papers world cache q lim = (ps, cache, 0) := by
  unfold arxiv_search_papers
  rw [hc]
  cases ps with
  | nil => exact absurd rfl hne
  | cons a t => rfl

/-- Toolkit-level cache-hit behaviour for either known source. -/
theorem toolkit_hit (world : World) (st : ToolkitState) (q : String) (lim : Nat)
    (src : String) (ps : List Paper) (hsrc : src = "openalex" ∨ src = "arxiv")
    (hc : st.cache (cacheKey src q) = some ps) (hne : ps ≠ []) :
    (toolkit_search world st q src lim).papers = ps ∧
    (toolkit_search world st q src lim).requests = 0 ∧
    (toolkit_search world st q src lim).state.cache = st.cache := by
  rcases hsrc with h | h <;> subst h
  · have hx := openalex_hit world st.cache q lim ps hc hne
    exact ⟨by simp [toolkit_search, hx], by simp [toolkit_search, hx],
      by simp [toolkit_search, hx]⟩
  · have hx := arxiv_hit world st.cache q lim ps hc hne
    exact ⟨by simp [toolkit_search, hx], by simp [toolkit_search, hx],
      by simp [toolkit_search, hx]⟩

/-- When the cache write goes through, the fresh OpenAlex path stores
whatever non-empty list it returns under the key it was called with. -/
theorem openalexFresh_caches (world : World) (cache : CacheMap) (key : String)
    (hsave : world.openalexSaveOk = true)
    (hne : (openalexFresh world cache key).1 ≠ []) :
    (openalexFresh world cache key).2.1 key = some (openalexFresh world cache key).1 := by
  unfold openalexFresh at hne ⊢
  cases hl : openalexLoop world.openalexOutcomes 0 3 with
  | mk r n =>
      rw [hl] at hne
      cases r with
      | some works => simp [hsave, updCache]
      | none => exact absurd rfl hne

/-- Unfolding of the OpenAlex client on a present cache entry. -/
theorem openalex_search_eq_some (world : World) (cache : CacheMap) (q : String)
    (lim : Nat) (ps : List Paper) (hc : cache (cacheKey "openalex" q) = some ps) :
    openalex_search_papers world cache q lim =
      if ps.isEmpty then openalexFresh world cache (cacheKey "openalex" q)
      else (ps, cache, 0) := by
  unfold openalex_search_papers
  rw [hc]

/-- Unfolding of the OpenAlex client on a missing cache entry. -/
theorem openalex_search_eq_none (world : World) (cache : CacheMap) (q : String)
    (lim : Nat) (hc : cache (cacheKey "openalex" q) = none) :
    openalex_search_papers world cache q lim =
      openalexFresh world cache (cacheKey "openalex" q) := by
  unfold openalex_search_papers
  rw [hc]

/-- Unfolding of the arXiv client on a present cache entry. -/
theorem arxiv_search_eq_some (world : World) (cache : CacheMap) (q : String)
    (lim : Nat) (ps : List Paper) (hc : cache (cacheKey "arxiv" q) = some ps) :
    arxiv_search_papers world cache q lim =
      if ps.isEmpty then arxivFresh world cache (cacheKey "arxiv" q)
      else (ps, cache, 0) := by
  unfold arxiv_search_papers
  rw [hc]

/-- Unfolding of the arXiv client on a missing cache entry. -/
theorem arxiv_search_eq_none (world : World) (cache : CacheMap) (q : String)
    (lim : Nat) (hc : cache (cacheKey "arxiv" q) = none) :
    arxiv_search_papers world cache q lim =
      arxivFresh world cache (cacheKey "arxiv" q) := by
  unfold arxiv_search_papers
  rw [hc]

/-- After an OpenAlex toolkit call that returned a non-empty list, with the
cache write going through, the cache holds exactly that list at the call's
key. -/
theorem openalex_call_caches (world : World) (st : ToolkitState) (q : String)
    (lim : Nat) (hsave : world.openalexSaveOk = true)
    (hne : (toolkit_search world st q "openalex" lim).papers ≠ []) :
    (toolkit_search world st q "openalex" lim).state.cache (cacheKey "openalex" q) =
      some (toolkit_search world st q "openalex" lim).papers := by
  have hp : (toolkit_search world st q "openalex" lim).papers =
      (openalex_search_papers world st.cache q lim).1 := by
    simp [toolkit_search]
  have hcc : (toolkit_search world st q "openalex" lim).state.cache =
      (openalex_search_papers world st.cache q lim).2.1 := by
    simp [toolkit_search]
  rw [hp] at hne
  rw [hp, hcc]
  cases hc : st.cache (cacheKey "openalex" q) with
  | some ps =>
      rw [openalex_search_eq_some world st.cache q lim ps hc] at hne ⊢
      by_cases hps : ps.isEmpty
      · rw [if_pos hps] at hne ⊢
        exact openalexFresh_caches world st.cache (cacheKey "openalex" q) hsave hne
      · rw [if_neg hps] at hne ⊢
        exact hc
  | none =>
      rw [openalex_search_eq_none world st.cache q lim hc] at hne ⊢
      exact openalexFresh_caches world st.cache (cacheKey "openalex" q) hsave hne

/-- When the arXiv iteration completes and the cache write goes through,
the fresh arXiv path stores the list it returns under its key. -/
theorem arxivFresh_caches (world : World) (cache : CacheMap) (key : String)
    (entries : List ArxivEntry) (hok : world.arxivOutcome = .ok entries)
    (hsave : world.arxivSaveOk = true) :
    (arxivFresh world cache key).2.1 key = some (arxivFresh world cache key).1 := by
  unfold arxivFresh
  rw [hok]
  simp [hsave, updCache]

/-- After an arXiv toolkit call whose iteration completed and whose cache
write went through, the cache holds exactly the returned list at the call's
key (a truthy hit was already cached, a fresh call just wrote it). -/
theorem arxiv_call_caches (world : World) (st : ToolkitState) (q : String)
    (lim : Nat) (entries : List ArxivEntry)
    (hok : world.arxivOutcome = .ok entries) (hsave : world.arxivSaveOk = true) :
    (toolkit_search world st q "arxiv" lim).state.cache (cacheKey "arxiv" q) =
      some (toolkit_search world st q "arxiv" lim).papers := by
  have hp : (toolkit_search world st q "arxiv" lim).papers =
      (arxiv_search_papers world st.cache q lim).1 := by
    simp [toolkit_search]
  have hcc : (toolkit_search world st q "arxiv" lim).state.cache =
      (arxiv_search_papers world st.cache q lim).2.1 := by
    simp [toolkit_search]
  rw [hp, hcc]
  cases hc : st.cache (cacheKey "arxiv" q) with
  | some ps =>
      rw [arxiv_search_eq_some world st.cache q lim ps hc]
      by_cases hps : ps.isEmpty
      · rw [if_pos hps]
        exact arxivFresh_caches world st.cache (cacheKey "arxiv" q) entries hok hsave
      · rw [if_neg hps]
        exact hc
  | none =>
      rw [arxiv_search_eq_none world st.cache q lim hc]
      exact arxivFresh_caches world st.cache (cacheKey "arxiv" q) entries hok hsave

/-- C5 as amended: a present, non-empty cached value for a (source, query)
key is returned verbatim with zero external requests and an unchanged cache
— a truthy cache hit is never re-validated.  Consequently two identical
calls return the identical list with no external request on the second call
whenever the first call leaves a non-empty cached value for the key: for
OpenAlex, when its result is non-empty and the cache write goes through;
for arXiv, when its iteration completes, the cache write goes through and
the result is non-empty.  The restrictions are forced: an empty first
result is cached but falsy, `save_cache` swallows write failures, and an
arXiv mid-iteration failure returns a non-empty prefix that is never
cached — in each of those cases the second identical call issues a fresh
provider request. -/
theorem cache_idempotence_amended :
    (∀ world st q lim src ps, (src = "openalex" ∨ src = "arxiv") →
      st.cache (cacheKey src q) = some ps → ps ≠ [] →
      (toolkit_search world st q src lim).papers = ps ∧
      (toolkit_search world st q src lim).requests = 0 ∧
      (toolkit_search world st q src lim).state.cache = st.cache) ∧
    (∀ w1 w2 st q lim1 lim2,
      w1.openalexSaveOk = true →
      (toolkit_search w1 st q "openalex" lim1).papers ≠ [] →
      (toolkit_search w2 (toolkit_search w1 st q "openalex" lim1).state q "openalex"
          lim2).papers = (toolkit_search w1 st q "openalex" lim1).papers ∧
      (toolkit_search w2 (toolkit_search w1 st q "openalex" lim1).state q "openalex"
          lim2).requests = 0) ∧
    (∀ w1 w2 st q lim1 lim2 entries,
      w1.arxivOutcome = .ok entries →
      w1.arxivSaveOk = true →
      (toolkit_search w1 st q "arxiv" lim1).papers ≠ [] →
      (toolkit_search w2 (toolkit_search w1 st q "arxiv" lim1).state q "arxiv"
          lim2).papers = (toolkit_search w1 st q "arxiv" lim1).papers ∧
      (toolkit_search w2 (toolkit_search w1 st q "arxiv" lim1).state q "arxiv"
          lim2).requests = 0) := by
  refine ⟨?_, ?_, ?_⟩
  · intro world st q lim src ps hsrc hc hne
    exact toolkit_hit world st q lim src ps hsrc hc hne
  · intro w1 w2 st q lim1 lim2 hsave hne
    have hcache := openalex_call_caches w1 st q lim1 hsave hne
    have hh := toolkit_hit w2 (toolkit_search w1 st q "openalex" lim1).state q lim2
      "openalex" (toolkit_search w1 st q "openalex" lim1).papers (Or.inl rfl) hcache hne
    exact ⟨hh.1, hh.2.1⟩
  · intro w1 w2 st q lim1 lim2 entries hok hsave hne
    have hcache := arxiv_call_caches w1 st q lim1 entries hok hsave
    have hh := toolkit_hit w2 (toolkit_search w1 st q "arxiv" lim1).state q lim2
      "arxiv" (toolkit_search w1 st q "arxiv" lim1).papers (Or.inr rfl) hcache hne
    exact ⟨hh.1, hh.2.1⟩

/-- Witness for the amended C5: a cached non-empty list is served verbatim,
and after a successful non-empty OpenAlex first call the second identical
call makes no request. -/
theorem cache_idempotence_amended_witness :
    (toolkit_search worldAllFail stCached "q" "openalex" 7).papers = [paperA] ∧
    (toolkit_search worldOk1 (toolkit_search worldOk1 stInit "q" "openalex" 1).state
      "q" "openalex" 1).requests = 0 :=
  ⟨(cache_idempotence_amended.1 worldAllFail stCached "q" 7 "openalex" [paperA]
      (Or.inl rfl) (by decide) (by decide)).1,
   (cache_idempotence_amended.2.1 worldOk1 worldOk1 stInit "q" 1 1 rfl (by decide)).2⟩

/-- C5 counterexample: the first call receives a 200 response with zero
results, so the empty list is returned and cached; because an empty cached
list is falsy, the second identical call is not answered from the cache — it
issues a fresh request (request count 1, not 0) and, the provider now
returning one work, yields a different paper list.  This refutes the claim
that any two identical calls return identical lists with no second external
request. -/
theorem cache_idempotence_counterexample :
    (toolkit_search ⟨fun _ => .success [], .ok [], true, true⟩ stInit "q" "openalex" 10).papers =
      [] ∧
    (toolkit_search ⟨fun _ => .success [⟨none, none, none, none, none, [], none⟩],
        .ok [], true, true⟩
      (toolkit_search ⟨fun _ => .success [], .ok [], true, true⟩ stInit "q" "openalex" 10).state
      "q" "openalex" 10).requests = 1 ∧
    (toolkit_search ⟨fun _ => .success [⟨none, none, none, none, none, [], none⟩],
        .ok [], true, true⟩
      (toolkit_search ⟨fun _ => .success [], .ok [], true, true⟩ stInit "q" "openalex" 10).state
      "q" "openalex" 10).papers ≠
    (toolkit_search ⟨fun _ => .success [], .ok [], true, true⟩ stInit "q" "openalex" 10).papers := by
  refine ⟨rfl, rfl, ?_⟩
  decide

/-- If every attempt's outcome is a failure, the retry loop never produces a
parsed response. -/
theorem openalexLoop_none (o : Nat → HttpOutcome)
    (h : ∀ a, isFailureOutcome (o a) = true) :
    ∀ fuel att, (openalexLoop o att fuel).1 = none := by
  intro fuel
  induction fuel with
  | zero => intro att; rfl
  | succ n ih =>
      intro att
      unfold openalexLoop
      cases ho : o att with
      | success w =>
          have hx := h att
          rw [ho] at hx
          exact absurd hx (by simp [isFailureOutcome])
      | rateLimited => simp [ih]
      | serverError => by_cases hb : att < 2 <;> simp [hb, ih]
      | clientError c => rfl
      | timeout => by_cases hb : att < 2 <;> simp [hb, ih]
      | exn m => by_cases hb : att < 2 <;> simp [hb, ih]

/-- A fresh OpenAlex request whose every attempt fails returns the empty
list. -/
theorem openalexFresh_fail (world : World) (cache : CacheMap) (key : String)
    (h : ∀ a, isFailureOutcome (world.openalexOutcomes a) = true) :
    (openalexFresh world cache key).1 = [] := by
  unfold openalexFresh
  cases hl : openalexLoop world.openalexOutcomes 0 3 with
  | mk r n =>
      cases r with
      | some works =>
          have := openalexLoop_none world.openalexOutcomes h 3 0
          rw [hl] at this
          cases this
      | none => rfl

/-- A falsy cache value is either absent or the empty list. -/
theorem truthyCache_false_cases (v : Option (List Paper))
    (h : truthyCache v = false) : v = none ∨ v = some [] := by
  cases v with
  | none => exact Or.inl rfl
  | some ps =>
      cases ps with
      | nil => exact Or.inr rfl
      | cons a t => simp [truthyCache] at h

/-- C6 counterexample: an arXiv iteration that raises after yielding one
entry is a provider failure, yet the call returns the non-empty normalized
prefix, not the empty list — refuting the claim that every failure degrades
to returning an empty list. -/
theorem search_degrades_counterexample :
    worldMidFail.arxivOutcome = ArxivOutcome.failAfter [entryA] "mid" ∧
    (toolkit_search worldMidFail stInit "q" "arxiv" 10).papers =
      [normalizeArxiv entryA] ∧
    (toolkit_search worldMidFail stInit "q" "arxiv" 10).papers ≠ [] := by
  refine ⟨rfl, rfl, ?_⟩
  decide

/-- C6 as amended: the search never raises to its caller (it is a total
function into paper lists), and failure degrades to data, not always to an
empty list: an unknown provider id yields `[]` immediately; OpenAlex yields
`[]` after its bounded retries when every attempt fails (timeout, 5xx,
rate-limit signal, other status, or a raised exception such as a malformed
payload); an arXiv iteration that raises after yielding some entries
returns the well-formed list of the already-normalized entries — empty
exactly when the failure struck before the first entry.  A truthy cached
value is excluded since a hit short-circuits the provider entirely. -/
theorem search_degrades_spec :
    (∀ world st q lim src, src ≠ "openalex" → src ≠ "arxiv" →
      (toolkit_search world st q src lim).papers = []) ∧
    (∀ world st q lim, (∀ a, isFailureOutcome (world.openalexOutcomes a) = true) →
      truthyCache (st.cache (cacheKey "openalex" q)) = false →
      (toolkit_search world st q "openalex" lim).papers = []) ∧
    (∀ world st q lim entries msg, world.arxivOutcome = .failAfter entries msg →
      truthyCache (st.cache (cacheKey "arxiv" q)) = false →
      (toolkit_search world st q "arxiv" lim).papers = entries.map normalizeArxiv) := by
  refine ⟨?_, ?_, ?_⟩
  · intro world st q lim src h1 h2
    simp [toolkit_search, h1, h2]
  · intro world st q lim hall hmiss
    have hp : (toolkit_search world st q "openalex" lim).papers =
        (openalex_search_papers world st.cache q lim).1 := by
      simp [toolkit_search]
    rw [hp]
    rcases truthyCache_false_cases _ hmiss with hc | hc
    · rw [openalex_search_eq_none world st.cache q lim hc]
      exact openalexFresh_fail world st.cache _ hall
    · rw [openalex_search_eq_some world st.cache q lim [] hc]
      simp only [List.isEmpty_nil, if_true]
      exact openalexFresh_fail world st.cache _ hall
  · intro world st q lim entries msg harx hmiss
    have hp : (toolkit_search world st q "arxiv" lim).papers =
        (arxiv_search_papers world st.cache q lim).1 := by
      simp [toolkit_search]
    rw [hp]
    have hfr : (arxivFresh world st.cache (cacheKey "arxiv" q)).1 =
        entries.map normalizeArxiv := by
      unfold arxivFresh
      rw [harx]
    rcases truthyCache_false_cases _ hmiss with hc | hc
    · rw [arxiv_search_eq_none world st.cache q lim hc]
      exact hfr
    · rw [arxiv_search_eq_some world st.cache q lim [] hc]
      simp only [List.isEmpty_nil, if_true]
      exact hfr

/-- Witness for the amended C6: unknown provider and all-attempts-raising
OpenAlex yield `[]`; an arXiv failure after one entry yields exactly that
entry's normalized paper. -/
theorem search_degrades_spec_witness :
    (toolkit_search worldAllFail stInit "q" "pubmed" 10).papers = [] ∧
    (toolkit_search worldAllFail stInit "q" "openalex" 10).papers = [] ∧
    (toolkit_search worldMidFail stInit "q" "arxiv" 10).papers =
      [normalizeArxiv entryA] :=
  ⟨search_degrades_spec.1 worldAllFail stInit "q" 10 "pubmed" (by decide) (by decide),
   search_degrades_spec.2.1 worldAllFail stInit "q" 10 (fun a => rfl) rfl,
   search_degrades_spec.2.2 worldMidFail stInit "q" 10 [entryA] "mid" rfl rfl⟩

/-- With any fuel left, the retry loop issues at least one request. -/
theorem openalexLoop_req_pos (o : Nat → HttpOutcome) (att fuel : Nat)
    (h : 0 < fuel) : 1 ≤ (openalexLoop o att fuel).2 := by
  cases fuel with
  | zero => omega
  | succ n =>
      unfold openalexLoop
      cases o att with
      | success w => simp
      | rateLimited => simp
      | serverError => by_cases hb : att < 2 <;> simp [hb]
      | clientError c => simp
      | timeout => by_cases hb : att < 2 <;> simp [hb]
      | exn m => by_cases hb : att < 2 <;> simp [hb]

/-- The fresh OpenAlex path always issues at least one request. -/
theorem openalexFresh_req_pos (world : World) (cache : CacheMap) (key : String) :
    1 ≤ (openalexFresh world cache key).2.2 := by
  unfold openalexFresh
  cases hl : openalexLoop world.openalexOutcomes 0 3 with
  | mk r n =>
      have := openalexLoop_req_pos world.openalexOutcomes 0 3 (by omega)
      rw [hl] at this
      cases r with
      | some works => exact this
      | none => exact this

/-- The fresh arXiv path always issues exactly one request. -/
theorem arxivFresh_req (world : World) (cache : CacheMap) (key : String) :
    (arxivFresh world cache key).2.2 = 1 := by
  unfold arxivFresh
  cases world.arxivOutcome <;> rfl

/-- C10: a cached empty list — like a missing or unreadable cache file — is
treated as a cache miss: the truthiness test fails and a fresh external
request is issued; conversely a call that made no external request must have
been served by a present, non-empty cached list, returned verbatim. -/
theorem empty_cache_is_miss :
    (∀ world st q lim src, (src = "openalex" ∨ src = "arxiv") →
      (st.cache (cacheKey src q) = some [] ∨ st.cache (cacheKey src q) = none) →
      1 ≤ (toolkit_search world st q src lim).requests) ∧
    (∀ world st q lim src, (src = "openalex" ∨ src = "arxiv") →
      (toolkit_search world st q src lim).requests = 0 →
      ∃ ps, ps ≠ [] ∧ st.cache (cacheKey src q) = some ps ∧
        (toolkit_search world st q src lim).papers = ps) := by
  constructor
  · intro world st q lim src hsrc hmiss
    rcases hsrc with h | h <;> subst h
    · have hr : (toolkit_search world st q "openalex" lim).requests =
          (openalex_search_papers world st.cache q lim).2.2 := by
        simp [toolkit_search]
      rw [hr]
      rcases hmiss with hc | hc
      · rw [openalex_search_eq_some world st.cache q lim [] hc]
        simp only [List.isEmpty_nil, if_true]
        exact openalexFresh_req_pos world st.cache _
      · rw [openalex_search_eq_none world st.cache q lim hc]
        exact openalexFresh_req_pos world st.cache _
    · have hr : (toolkit_search world st q "arxiv" lim).requests =
          (arxiv_search_papers world st.cache q lim).2.2 := by
        simp [toolkit_search]
      rw [hr]
      rcases hmiss with hc | hc
      · rw [arxiv_search_eq_some world st.cache q lim [] hc]
        simp only [List.isEmpty_nil, if_true]
        rw [arxivFresh_req]
      · rw [arxiv_search_eq_none world st.cache q lim hc]
        rw [arxivFresh_req]
  · intro world st q lim src hsrc hreq
    rcases hsrc with h | h <;> subst h
    · have hr : (toolkit_search world st q "openalex" lim).requests =
          (openalex_search_papers world st.cache q lim).2.2 := by
        simp [toolkit_search]
      have hp : (toolkit_search world st q "openalex" lim).papers =
          (openalex_search_papers world st.cache q lim).1 := by
        simp [toolkit_search]
      rw [hr] at hreq
      cases hc : st.cache (cacheKey "openalex" q) with
      | some ps =>
          by_cases hps : ps.isEmpty
          · rw [openalex_search_eq_some world st.cache q lim ps hc, if_pos hps] at hreq
            have := openalexFresh_req_pos world st.cache (cacheKey "openalex" q)
            omega
          · refine ⟨ps, ?_, rfl, ?_⟩
            · intro he
              rw [he] at hps
              exact hps rfl
            · rw [hp, openalex_search_eq_some world st.cache q lim ps hc, if_neg hps]
      | none =>
          rw [openalex_search_eq_none world st.cache q lim hc] at hreq
          have := openalexFresh_req_pos world st.cache (cacheKey "openalex" q)
          omega
    · have hr : (toolkit_search world st q "arxiv" lim).requests =
          (arxiv_search_papers world st.cache q lim).2.2 := by
        simp [toolkit_search]
      have hp : (toolkit_search world st q "arxiv" lim).papers =
          (arxiv_search_papers world st.cache q lim).1 := by
        simp [toolkit_search]
      rw [hr] at hreq
      cases hc : st.cache (cacheKey "arxiv" q) with
      | some ps =>
          by_cases hps : ps.isEmpty
          · rw [arxiv_search_eq_some world st.cache q lim ps hc, if_pos hps,
              arxivFresh_req] at hreq
            omega
          · refine ⟨ps, ?_, rfl, ?_⟩
            · intro he
              rw [he] at hps
              exact hps rfl
            · rw [hp, arxiv_search_eq_some world st.cache q lim ps hc, if_neg hps]
      | none =>
          rw [arxiv_search_eq_none world st.cache q lim hc, arxivFresh_req] at hreq
          omega

/-- Witness for C10: a cached empty list forces a fresh request. -/
theorem empty_cache_is_miss_witness :
    1 ≤ (toolkit_search worldAllFail
      ⟨fun k => if k = cacheKey "openalex" "q" then some [] else none,
       fun _ => 0, fun _ => 0⟩ "q" "openalex" 10).requests :=
  empty_cache_is_miss.1 worldAllFail
    ⟨fun k => if k = cacheKey "openalex" "q" then some [] else none,
     fun _ => 0, fun _ => 0⟩ "q" 10 "openalex" (Or.inl rfl) (Or.inl (by decide))

/-! ## Abstract reconstruction (C8) -/

theorem le_foldl_max_init (l : List Nat) (a : Nat) : a ≤ l.foldl max a := by
  induction l generalizing a with
  | nil => exact Nat.le_refl a
  | cons q t ih => exact le_trans (le_max_left a q) (ih (max a q))

theorem le_foldl_max_of_mem (l : List Nat) (a x : Nat) (h : x ∈ l) :
    x ≤ l.foldl max a := by
  induction l generalizing a with
  | nil => cases h
  | cons q t ih =>
      rcases List.mem_cons.mp h with rfl | hm
      · exact le_trans (le_max_right a x) (le_foldl_max_init t (max a x))
      · exact ih (max a q) hm

/-- Any listed position is bounded by the computed maximum position. -/
theorem listed_le_maxListedPos (idx : List (String × List Nat)) (w : String)
    (ps : List Nat) (p : Nat) (hm : (w, ps) ∈ idx) (hp : p ∈ ps) :
    p ≤ maxListedPos idx := by
  unfold maxListedPos
  have h1 : p ≤ ps.foldl max 0 := le_foldl_max_of_mem ps 0 p hp
  have h2 : ps.foldl max 0 ∈ idx.map (fun wp => wp.2.foldl max 0) :=
    List.mem_map.mpr ⟨(w, ps), hm, rfl⟩
  exact le_trans h1 (le_foldl_max_of_mem _ 0 _ h2)

theorem setFold_length (w : String) (ps : List Nat) (ws : List String) :
    (ps.foldl (fun acc pos => acc.set pos w) ws).length = ws.length := by
  induction ps generalizing ws with
  | nil => rfl
  | cons q t ih => rw [List.foldl_cons, ih, List.length_set]

theorem setFold_get_not_mem (w : String) (ps : List Nat) (ws : List String)
    (p : Nat) (hp : p ∉ ps) :
    (ps.foldl (fun acc pos => acc.set pos w) ws)[p]? = ws[p]? := by
  induction ps generalizing ws with
  | nil => rfl
  | cons q t ih =>
      have hq : q ≠ p := fun e => hp (by rw [e]; exact List.mem_cons_self p t)
      have hpt : p ∉ t := fun h => hp (List.mem_cons_of_mem _ h)
      rw [List.foldl_cons, ih (ws.set q w) hpt, List.getElem?_set_ne hq]

theorem setFold_get_mem (w : String) (ps : List Nat) (ws : List String)
    (p : Nat) (hp : p ∈ ps) (hlen : p < ws.length) :
    (ps.foldl (fun acc pos => acc.set pos w) ws)[p]? = some w := by
  induction ps generalizing ws with
  | nil => cases hp
  | cons q t ih =>
      by_cases hpt : p ∈ t
      · rw [List.foldl_cons]
        exact ih (ws.set q w) hpt (by rw [List.length_set]; exact hlen)
      · have hpq : p = q := by
          rcases List.mem_cons.mp hp with h | h
          · exact h
          · exact absurd h hpt
        subst hpq
        rw [List.foldl_cons, setFold_get_not_mem w t (ws.set p w) p hpt,
          List.getElem?_set_eq_of_lt w hlen]

theorem writeWords_cons (e : String × List Nat) (t : List (String × List Nat))
    (ws : List String) :
    writeWords (e :: t) ws =
      writeWords t (e.2.foldl (fun acc pos => acc.set pos e.1) ws) := by
  rw [writeWords, writeWords, List.foldl_cons]

theorem writeWords_length (idx : List (String × List Nat)) (ws : List String) :
    (writeWords idx ws).length = ws.length := by
  induction idx generalizing ws with
  | nil => rfl
  | cons e t ih => rw [writeWords_cons, ih, setFold_length]

/-- If every entry of the index that lists position `p` carries the word
`w`, and either some entry lists `p` or the buffer already holds `w` there,
then after all writes position `p` holds `w`. -/
theorem writeWords_get (idx : List (String × List Nat)) (ws : List String)
    (p : Nat) (w : String)
    (huniq : ∀ w2 ps2, (w2, ps2) ∈ idx → p ∈ ps2 → w2 = w)
    (hsrc : (∃ ps2, (w, ps2) ∈ idx ∧ p ∈ ps2) ∨ ws[p]? = some w)
    (hlen : p < ws.length) :
    (writeWords idx ws)[p]? = some w := by
  induction idx generalizing ws with
  | nil =>
      rcases hsrc with ⟨ps2, hm, _⟩ | h
      · cases hm
      · exact h
  | cons e t ih =>
      obtain ⟨w0, ps0⟩ := e
      rw [writeWords_cons]
      by_cases hp0 : p ∈ ps0
      · have hw0 : w0 = w := huniq w0 ps0 (List.mem_cons_self _ _) hp0
        subst hw0
        refine ih _ ?_ ?_ ?_
        · intro w2 ps2 hm hp2
          exact huniq w2 ps2 (List.mem_cons_of_mem _ hm) hp2
        · exact Or.inr (setFold_get_mem w0 ps0 ws p hp0 hlen)
        · rw [setFold_length]; exact hlen
      · refine ih _ ?_ ?_ ?_
        · intro w2 ps2 hm hp2
          exact huniq w2 ps2 (List.mem_cons_of_mem _ hm) hp2
        · rcases hsrc with ⟨ps2, hm, hp2⟩ | hws
          · rcases List.mem_cons.mp hm with he | hmt
            · injection he with h1 h2
              rw [h2] at hp2
              exact absurd hp2 hp0
            · exact Or.inl ⟨ps2, hmt, hp2⟩
          · rw [setFold_get_not_mem w0 ps0 ws p hp0]
            exact Or.inr hws
        · rw [setFold_length]; exact hlen

/-- C8: the reconstruction allocates a buffer of length (maximum listed
position + 1), writes each word at each of its listed positions (stated for
any position whose listings all agree on one word, which covers every
well-formed inverted index), and joins the buffer with single spaces; on the
index with "a" at 0 and 2 and "b" at 1 the result is exactly "a b a". -/
theorem abstract_reconstruction_spec :
    (∀ idx, (buildWords idx).length = maxListedPos idx + 1) ∧
    (∀ idx w ps p, (w, ps) ∈ idx → p ∈ ps →
      (∀ w2 ps2, (w2, ps2) ∈ idx → p ∈ ps2 → w2 = w) →
      (buildWords idx)[p]? = some w) ∧
    (∀ idx, reconstructAbstract idx = String.intercalate " " (buildWords idx)) ∧
    reconstructAbstract [("a", [0, 2]), ("b", [1])] = "a b a" := by
  refine ⟨?_, ?_, fun _ => rfl, by decide⟩
  · intro idx
    unfold buildWords
    rw [writeWords_length, List.length_replicate]
  · intro idx w ps p hm hp huniq
    unfold buildWords
    refine writeWords_get idx _ p w huniq (Or.inl ⟨ps, hm, hp⟩) ?_
    rw [List.length_replicate]
    exact Nat.lt_succ_of_le (listed_le_maxListedPos idx w ps p hm hp)

/-- Witness for C8: the buffer of the example index holds "b" at position 1. -/
theorem abstract_reconstruction_spec_witness :
    (buildWords [("a", [0, 2]), ("b", [1])])[1]? = some "b" := by
  refine abstract_reconstruction_spec.2.1 [("a", [0, 2]), ("b", [1])] "b" [1] 1
    (by decide) (by decide) ?_
  intro w2 ps2 hm hp
  simp only [List.mem_cons, List.not_mem_nil, or_false] at hm
  rcases hm with he | he
  · have h2 : ps2 = [0, 2] := congrArg Prod.snd he
    rw [h2] at hp
    exact absurd hp (by decide)
  · exact congrArg Prod.fst he

end ResearchMind
